import Mathlib

/-!
Shallow embedding of the indexing core and query parser of the repository
(src/core/writer.rs and src/query/query_parser.rs), together with proofs
about the claims of the specification.

Machine integers (`DocId`, u32 values) are modelled as `Nat`: none of the
verified paths can overflow 32 bits on the inputs considered, and the code
never relies on wrap-around.
-/

namespace Tantivy

/-! ## Characters and the tokenizer -/

/-- Models Rust's `char::is_alphanumeric` (used by `SimpleTokenizer` and by
the grammar's `word` production).  Rust's predicate is Unicode-aware; this
embedding restricts it to the ASCII range, which is exact on every input
appearing in the claims and in the repository's tests for these paths. -/
def char_is_alphanumeric (c : Char) : Bool :=
  c.isAlpha || c.isDigit

/-- Models Rust's `char::is_alphabetic`, the predicate behind combine's
`letter()` parser (ASCII restriction, as above). -/
def char_is_letter (c : Char) : Bool :=
  c.isAlpha

/-- Models Rust's `char::is_whitespace`, the predicate behind combine's
`space()`/`spaces()` parsers and `str::trim` (ASCII restriction). -/
def char_is_whitespace (c : Char) : Bool :=
  c == ' ' || c == '\t' || c == '\n' || c == '\r'

/-- The double-quote character of the grammar's `phrase` production. -/
def quote_char : Char := Char.ofNat 34

/-- Modelled from the spec: `core::analyzer::SimpleTokenizer` is not part of
the source excerpt; §4.2 specifies "a streaming splitter ... the default
splits on non-alphanumeric characters and preserves Unicode alphanumerics".
`tokenize_go acc rest` streams over `rest` with `acc` holding the current
token's characters in reverse. -/
def tokenize_go : List Char → List Char → List (List Char)
  | acc, [] => if acc.isEmpty then [] else [acc.reverse]
  | acc, c :: cs =>
    if char_is_alphanumeric c then
      tokenize_go (c :: acc) cs
    else if acc.isEmpty then
      tokenize_go [] cs
    else
      acc.reverse :: tokenize_go [] cs

/-- Modelled from the spec: the token stream of `SimpleTokenizer` on an
input, materialised as the list of maximal alphanumeric runs. -/
def tokenize (l : List Char) : List (List Char) :=
  tokenize_go [] l

/-! ## Schema and documents -/

/-- A `Field` is a small integer ordinal (handle into the schema). -/
abbrev Field : Type := Nat

/-- The `schema::TextOptions`: three independent booleans. -/
structure TextOptions where
  indexed : Bool
  tokenized : Bool
  stored : Bool
deriving DecidableEq, Repr

/-- The `TextOptions::is_tokenized_indexed`: `indexed && tokenized`. -/
def TextOptions.is_tokenized_indexed (o : TextOptions) : Bool :=
  o.indexed && o.tokenized

/-- The `TextOptions::is_stored`. -/
def TextOptions.is_stored (o : TextOptions) : Bool :=
  o.stored

/-- The `schema::U32Options`. -/
structure U32Options where
  indexed : Bool
  fast : Bool
deriving DecidableEq, Repr

/-- The `U32Options::is_indexed`. -/
def U32Options.is_indexed (o : U32Options) : Bool :=
  o.indexed

/-- One schema entry: a field is either a text field or a u32 field. -/
inductive FieldEntry where
  | text (options : TextOptions)
  | u32 (options : U32Options)
deriving DecidableEq, Repr

/-- Modelled from the spec (§3, §4.1): `Schema` is an "ordered registry of
fields: mapping name→Field, vector of FieldKind per Field"; the `Field`
ordinal is the index into that vector.  Only the lookup operations used by
`writer.rs` and `query_parser.rs` are embedded. -/
structure Schema where
  fields : List (String × FieldEntry)
deriving DecidableEq, Repr

/-- The `Schema::get_field(name)`: ordinal of the first field with that name. -/
def Schema.get_field (s : Schema) (name : String) : Option Field :=
  (s.fields.findIdx? (fun p => p.1 = name)).map (fun i => (i : Field))

/-- The `Schema::text_field_options(field)`.  The source panics when `field` is
not a text field; the embedding totalises that case with inert options
(never reached on the verified paths). -/
def Schema.text_field_options (s : Schema) (f : Field) : TextOptions :=
  match s.fields.get? (f : Nat) with
  | some (_, FieldEntry.text o) => o
  | _ => ⟨false, false, false⟩

/-- The `Schema::u32_field_options(field)` (same totalisation). -/
def Schema.u32_field_options (s : Schema) (f : Field) : U32Options :=
  match s.fields.get? (f : Nat) with
  | some (_, FieldEntry.u32 o) => o
  | _ => ⟨false, false⟩

/-- The `schema::Term`: a field-tagged key.  The source stores payload bytes
whose encoding is chosen by the constructor (`from_field_text` = UTF-8,
`from_field_u32` = big-endian u32); the two encodings are kept apart here
by the constructor tag. -/
inductive Term where
  | text (field : Field) (value : String)
  | u32 (field : Field) (value : Nat)
deriving DecidableEq, Repr

/-- The `Term::from_field_text`. -/
def Term.from_field_text (f : Field) (v : String) : Term :=
  Term.text f v

/-- The `Term::from_field_u32`. -/
def Term.from_field_u32 (f : Field) (v : Nat) : Term :=
  Term.u32 f v

/-- One text field value of a document. -/
structure TextFieldValue where
  field : Field
  text : String
deriving DecidableEq, Repr

/-- One u32 field value of a document. -/
structure U32FieldValue where
  field : Field
  value : Nat
deriving DecidableEq, Repr

/-- Modelled from the spec (§3): a `Document` is a caller-constructed
"heterogeneous list of (Field, value) pairs, partitioned by value kind";
`text_fields` and `u32_fields` iterate each partition in the document's own
(insertion) order. -/
structure Document where
  text_fields : List TextFieldValue
  u32_fields : List U32FieldValue
deriving DecidableEq, Repr

/-- The `DocId`: dense per-segment ordinal. -/
abbrev DocId : Type := Nat

/-! ## PostingsWriter -/

/-- The `postings::PostingsWriter`, abstracted to the trace of its `suscribe`
calls (the spelling is the source's).  The claims about `writer.rs` concern
which `(doc_id, term)` pairs are subscribed and in which order, so the
writer is embedded as that call log. -/
structure PostingsWriter where
  subscriptions : List (DocId × Term)
deriving DecidableEq, Repr

/-- The `PostingsWriter::new()`. -/
def PostingsWriter.new : PostingsWriter :=
  ⟨[]⟩

/-- The `PostingsWriter::suscribe(doc_id, term)` records one subscription. -/
def PostingsWriter.suscribe (pw : PostingsWriter) (doc_id : DocId) (term : Term) : PostingsWriter :=
  ⟨pw.subscriptions ++ [(doc_id, term)]⟩

/-! ## U32FastFieldsWriter -/

/-- Modelled from the spec (§4.4): `fastfield::U32FastFieldsWriter` is not
part of the source excerpt; it keeps, per u32 field marked `fast`, a dense
column of cells, one per indexed document. -/
structure U32FastFieldsWriter where
  columns : List (Field × List Nat)
deriving DecidableEq, Repr

/-- Modelled from the spec: `U32FastFieldsWriter::from_schema` "allocates
one column per fast field". -/
def U32FastFieldsWriter.from_schema (schema : Schema) : U32FastFieldsWriter :=
  ⟨(List.range schema.fields.length).filterMap (fun i =>
      if (schema.u32_field_options (i : Field)).fast then some ((i : Field), []) else none)⟩

/-- Modelled from the spec: `U32FastFieldsWriter::add_document` appends,
for each fast field, "the document's value for that field, or a declared
default (zero) if absent". -/
def U32FastFieldsWriter.add_document (w : U32FastFieldsWriter) (doc : Document) : U32FastFieldsWriter :=
  ⟨w.columns.map (fun col =>
      match doc.u32_fields.find? (fun fv => fv.field = col.1) with
      | some fv => (col.1, col.2 ++ [fv.value])
      | none => (col.1, col.2 ++ [0]))⟩

/-! ## SegmentSerializer -/

/-- The `SegmentInfo`: the segment metadata record. -/
structure SegmentInfo where
  max_doc : Nat
deriving DecidableEq, Repr

/-- One operation performed against the segment serializer.  The byte-level
behaviour of each operation is out of scope (§1); the serializer is
embedded as the ordered log of the operations invoked on it. -/
inductive SEvent where
  | storeDoc (fields : List (Field × String))
  | serializePostings (subs : List (DocId × Term))
  | serializeFastFields (cols : List (Field × List Nat))
  | writeSegmentInfo (max_doc : Nat)
  | close
deriving DecidableEq, Repr

/-- An I/O error, abstracted to a code. -/
abbrev IOErr : Type := Nat

/-- The `SegmentSerializer`, embedded as the log of operations performed so
far, plus an environment oracle `fail` deciding whether the k-th operation
(kinds are `io::Result`-returning in the source) fails with an I/O error.
A failing operation leaves the log unchanged. -/
structure SegmentSerializer where
  events : List SEvent
  fail : Nat → Option IOErr

/-- Run one fallible serializer operation: consult the oracle at the
current operation count, then either fail or append the event. -/
def SegmentSerializer.run_op (s : SegmentSerializer) (e : SEvent) :
    SegmentSerializer × Except IOErr Unit :=
  match s.fail s.events.length with
  | some err => (s, Except.error err)
  | none => ({ s with events := s.events ++ [e] }, Except.ok ())

/-- The `SegmentSerializer::store_doc`: append one document's stored field
values to the stored-field stream. -/
def SegmentSerializer.store_doc (s : SegmentSerializer) (fields : List (Field × String)) :
    SegmentSerializer × Except IOErr Unit :=
  s.run_op (SEvent.storeDoc fields)

/-- The `SegmentSerializer::write_segment_info`. -/
def SegmentSerializer.write_segment_info (s : SegmentSerializer) (info : SegmentInfo) :
    SegmentSerializer × Except IOErr Unit :=
  s.run_op (SEvent.writeSegmentInfo info.max_doc)

/-- The `SegmentSerializer::close`. -/
def SegmentSerializer.close (s : SegmentSerializer) :
    SegmentSerializer × Except IOErr Unit :=
  s.run_op SEvent.close

/-- Modelled from the spec (§4.3): `PostingsWriter::serialize` "drains all
accumulated terms ... and writes postings + dictionary" through the
postings serializer obtained from the segment serializer; embedded as one
logged serializer operation carrying the accumulated subscriptions. -/
def PostingsWriter.serialize (pw : PostingsWriter) (s : SegmentSerializer) :
    SegmentSerializer × Except IOErr Unit :=
  s.run_op (SEvent.serializePostings pw.subscriptions)

/-- Modelled from the spec (§4.4): `U32FastFieldsWriter::serialize` "emits
each column as a packed-integer block" through the fast-field serializer;
embedded as one logged serializer operation carrying the columns. -/
def U32FastFieldsWriter.serialize (w : U32FastFieldsWriter) (s : SegmentSerializer) :
    SegmentSerializer × Except IOErr Unit :=
  s.run_op (SEvent.serializeFastFields w.columns)

/-- The documents appended to the stored-field stream, read off the log. -/
def SegmentSerializer.stored_docs (s : SegmentSerializer) : List (List (Field × String)) :=
  s.events.filterMap (fun e =>
    match e with
    | SEvent.storeDoc fields => some fields
    | _ => none)

/-- A fresh serializer (as produced by `SegmentSerializer::for_segment`)
with failure behaviour `fail` chosen by the environment. -/
def SegmentSerializer.fresh (fail : Nat → Option IOErr) : SegmentSerializer :=
  ⟨[], fail⟩

/-- The never-failing I/O environment. -/
def no_fail : Nat → Option IOErr := fun _ => none

/-! ## SegmentWriter (src/core/writer.rs, lines 123-205) -/

/-- The `SegmentWriter` (writer.rs line 123).  The tokenizer field of the
source (`SimpleTokenizer`) is stateless, so it is not carried in the
state; `tokenize` stands for `self.tokenizer.tokenize`. -/
structure SegmentWriter where
  max_doc : DocId
  postings_writer : PostingsWriter
  segment_serializer : SegmentSerializer
  fast_field_writers : U32FastFieldsWriter

/-- The `SegmentWriter::for_segment` (writer.rs line 152): `max_doc` starts at
0, fresh `PostingsWriter`, fast-field writers from the schema.  The
serializer produced by `SegmentSerializer::for_segment(&segment)` is the
`segment_serializer` argument (its failure oracle is the environment's). -/
def SegmentWriter.for_segment (segment_serializer : SegmentSerializer) (schema : Schema) :
    SegmentWriter :=
  { max_doc := 0
    postings_writer := PostingsWriter.new
    segment_serializer := segment_serializer
    fast_field_writers := U32FastFieldsWriter.from_schema schema }

/-- The postings subscriptions performed by `add_document` for one text
field value (writer.rs lines 165-179): if the field's options satisfy
`is_tokenized_indexed`, one `suscribe(doc_id, Term::from_field_text(field,
token))` per token streamed by the tokenizer, in stream order; otherwise
none. -/
def subscribe_text_field (schema : Schema) (doc_id : DocId) (pw : PostingsWriter)
    (fv : TextFieldValue) : PostingsWriter :=
  if (schema.text_field_options fv.field).is_tokenized_indexed then
    (tokenize fv.text.data).foldl
      (fun pw tok => pw.suscribe doc_id (Term.from_field_text fv.field tok.asString)) pw
  else
    pw

/-- The postings subscription performed by `add_document` for one u32 field
value (writer.rs lines 180-186). -/
def subscribe_u32_field (schema : Schema) (doc_id : DocId) (pw : PostingsWriter)
    (fv : U32FieldValue) : PostingsWriter :=
  if (schema.u32_field_options fv.field).is_indexed then
    pw.suscribe doc_id (Term.from_field_u32 fv.field fv.value)
  else
    pw

/-- The `SegmentWriter::add_document` (writer.rs lines 163-194), in source
order: `doc_id = max_doc`; subscribe tokenized-indexed text fields; then
indexed u32 fields; build the stored-field iterator (text field values with
`is_stored`, in document order); update the fast-field writers; `try!` on
`store_doc` (on failure the earlier mutations persist, `max_doc` does not
change); finally `max_doc += 1`.  Mirrors `&mut self -> io::Result<()>` as
`SegmentWriter -> SegmentWriter × Except IOErr Unit`. -/
def SegmentWriter.add_document (w : SegmentWriter) (doc : Document) (schema : Schema) :
    SegmentWriter × Except IOErr Unit :=
  let doc_id := w.max_doc
  let pw1 := doc.text_fields.foldl (subscribe_text_field schema doc_id) w.postings_writer
  let pw2 := doc.u32_fields.foldl (subscribe_u32_field schema doc_id) pw1
  let stored_fieldvalues :=
    doc.text_fields.filter (fun tfv => (schema.text_field_options tfv.field).is_stored)
  let ffw := w.fast_field_writers.add_document doc
  match (w.segment_serializer.store_doc (stored_fieldvalues.map (fun tfv => (tfv.field, tfv.text)))) with
  | (ser, Except.error e) =>
    ({ w with postings_writer := pw2, fast_field_writers := ffw, segment_serializer := ser },
     Except.error e)
  | (ser, Except.ok _) =>
    ({ max_doc := doc_id + 1
       postings_writer := pw2
       fast_field_writers := ffw
       segment_serializer := ser },
     Except.ok ())

/-- The `SegmentWriter::finalize` (writer.rs lines 137-146): serialize the
postings, write `SegmentInfo{max_doc}`, then close; each step under
`try!`.  Consumes the writer; the final serializer state is returned with
the result. -/
def SegmentWriter.finalize (w : SegmentWriter) : SegmentSerializer × Except IOErr Unit :=
  match w.postings_writer.serialize w.segment_serializer with
  | (s1, Except.error e) => (s1, Except.error e)
  | (s1, Except.ok _) =>
    match s1.write_segment_info ⟨w.max_doc⟩ with
    | (s2, Except.error e) => (s2, Except.error e)
    | (s2, Except.ok _) => s2.close

/-- The `<SegmentWriter as SerializableSegment>::write` (writer.rs lines
199-204): serialize postings, serialize fast fields, close. -/
def SegmentWriter.write (w : SegmentWriter) (serializer : SegmentSerializer) :
    SegmentSerializer × Except IOErr Unit :=
  match w.postings_writer.serialize serializer with
  | (s1, Except.error e) => (s1, Except.error e)
  | (s1, Except.ok _) =>
    match w.fast_field_writers.serialize s1 with
    | (s2, Except.error e) => (s2, Except.error e)
    | (s2, Except.ok _) => s2.close

/-! ## IndexWriter (src/core/writer.rs, lines 22-120) -/

/-- The bounded submission channel of `IndexWriter`, abstracted to its
queue contents and whether the receiving side is closed.  (Capacity and
blocking are scheduling behaviour, outside this embedding.) -/
structure DocChannel where
  queue : List Document
  closed : Bool

/-- The `SyncSender::send`: on a closed channel the send fails and the queue is
unchanged; otherwise the document is enqueued. -/
def DocChannel.send (ch : DocChannel) (doc : Document) : DocChannel × Except Unit Unit :=
  if ch.closed then
    (ch, Except.error ())
  else
    ({ ch with queue := ch.queue ++ [doc] }, Except.ok ())

/-- The `IndexWriter`, restricted to the state `add_document` touches. -/
structure IndexWriter where
  queue_input : DocChannel

/-- The `IndexWriter::add_document` (writer.rs lines 92-97): wrap the document,
call `send`, discard its result (`self.queue_input.send(arc_doc);`), and
return `Ok(())` unconditionally. -/
def IndexWriter.add_document (iw : IndexWriter) (doc : Document) :
    IndexWriter × Except IOErr Unit :=
  let sent := iw.queue_input.send doc
  ({ queue_input := sent.1 }, Except.ok ())

/-- The `SEGMENT_ROLL`: the worker's inner loop bound, `for i in 0..500`
(writer.rs line 48). -/
def SEGMENT_ROLL : Nat := 500

/-- One worker's inner `for i in 0..iters` loop (writer.rs lines 48-65)
over the remaining queue contents: `recv` yields the next queued document
or, when the queue is exhausted (channel closed), `Err`, which clears
`docs_remaining` and breaks.  Each received document goes through
`add_document(..).unwrap()`; an indexing error panics the thread (third
component `true`). Returns (writer, remaining queue, docs_remaining,
panicked). -/
def worker_inner (schema : Schema) :
    SegmentWriter → List Document → Nat → SegmentWriter × List Document × Bool × Bool
  | w, queue, 0 => (w, queue, true, false)
  | w, [], _ + 1 => (w, [], false, false)
  | w, d :: ds, iters + 1 =>
    match w.add_document d schema with
    | (w', Except.ok _) => worker_inner schema w' ds iters
    | (w', Except.error _) => (w', ds, true, true)

/-- One worker's outer `while docs_remaining` loop (writer.rs lines 43-71):
per round, a fresh `SegmentWriter` for a new segment (serializer chosen by
the environment map `mk` from the round index), the inner loop, then
`finalize().unwrap()`.  Returns the writers as they are finalized.  A
panicking round produces no finalized segment and kills the thread.
`fuel` bounds the rounds (the source loops until the channel closes; any
`fuel > queue.length / 1 + 1` is enough, and the claims proved below hold
for every fuel). -/
def worker (schema : Schema) (mk : Nat → SegmentSerializer) :
    Nat → List Document → Nat → List SegmentWriter
  | 0, _, _ => []
  | fuel + 1, queue, round =>
    let w0 := SegmentWriter.for_segment (mk round) schema
    match worker_inner schema w0 queue SEGMENT_ROLL with
    | (w, rest, docs_remaining, panicked) =>
      if panicked then []
      else
        match w.finalize with
        | (_, Except.error _) => []  -- finalize().unwrap() panics the thread
        | (_, Except.ok _) =>
          if docs_remaining then w :: worker schema mk fuel rest (round + 1)
          else [w]

/-! ## The combine parser combinators (src/query/query_parser.rs)

`query_language` is written against the `combine` crate (a Parsec-style
library).  Its semantics are embedded by the classical consumed-flag
model: a parser maps the remaining input to either success or failure,
each tagged with whether input was consumed; `or` tries its second branch
only on an unconsumed failure, and `try` converts a consumed failure into
an unconsumed one. -/

/-- Result of a parser on an input: Parsec/combine consumed-flag model. -/
inductive PResult (α : Type) where
  | ok (consumed : Bool) (val : α) (rest : List Char)
  | err (consumed : Bool)
deriving DecidableEq, Repr

/-- A parser over character input. -/
abbrev CParser (α : Type) : Type := List Char → PResult α

/-- combine's `satisfy(pred)`. -/
def psatisfy (pred : Char → Bool) : CParser Char := fun input =>
  match input with
  | [] => PResult.err false
  | c :: cs => if pred c then PResult.ok true c cs else PResult.err false

/-- combine's `char(c)`. -/
def pchar (c : Char) : CParser Char :=
  psatisfy (fun x => x == c)

/-- The `p.map(f)`. -/
def pmap (f : α → β) (p : CParser α) : CParser β := fun input =>
  match p input with
  | PResult.ok consumed v rest => PResult.ok consumed (f v) rest
  | PResult.err consumed => PResult.err consumed

/-- Tuple sequencing `(p, q)`: a failure of `q` is consumed if either part
consumed input. -/
def pseq (p : CParser α) (q : CParser β) : CParser (α × β) := fun input =>
  match p input with
  | PResult.err c => PResult.err c
  | PResult.ok c v rest =>
    match q rest with
    | PResult.err c2 => PResult.err (c || c2)
    | PResult.ok c2 w rest2 => PResult.ok (c || c2) (v, w) rest2

/-- combine's `p.or(q)`: `q` runs only when `p` fails without consuming. -/
def por (p q : CParser α) : CParser α := fun input =>
  match p input with
  | PResult.err false => q input
  | r => r

/-- combine's `try(p)`: failure never counts as consuming. -/
def ptry (p : CParser α) : CParser α := fun input =>
  match p input with
  | PResult.err _ => PResult.err false
  | r => r

/-- A parser that consumes nothing and succeeds with `v`. -/
def ppure (v : α) : CParser α := fun input =>
  PResult.ok false v input

/-- combine's `eof()`. -/
def peof : CParser Unit := fun input =>
  match input with
  | [] => PResult.ok false () []
  | _ :: _ => PResult.err false

/-- Iteration core of combine's `many`: apply `p` while it succeeds with
consumption; stop on an unconsumed failure; propagate a consumed failure.
`fuel` bounds the iterations: every parser `many` is applied to in this
grammar consumes input on success, so `input.length + 1` iterations are
never exhausted (a zero-consumption success, which would loop forever in
the library, degenerates to a stop here and is unreachable below). -/
def pmanyAux (p : CParser α) : Nat → Bool → List α → CParser (List α)
  | 0, consumed, acc, input => PResult.ok consumed acc.reverse input
  | fuel + 1, consumed, acc, input =>
    match p input with
    | PResult.ok true v rest => pmanyAux p fuel true (v :: acc) rest
    | PResult.ok false _ _ => PResult.ok consumed acc.reverse input
    | PResult.err true => PResult.err true
    | PResult.err false => PResult.ok consumed acc.reverse input

/-- combine's `many(p)`. -/
def pmany (p : CParser α) : CParser (List α) := fun input =>
  pmanyAux p (input.length + 1) false [] input

/-- combine's `many1(p)`. -/
def pmany1 (p : CParser α) : CParser (List α) :=
  pmap (fun pr => pr.1 :: pr.2) (pseq p (pmany p))

/-- combine's `spaces()`: `skip_many(space())`. -/
def pspaces : CParser Unit :=
  pmap (fun _ => ()) (pmany (psatisfy char_is_whitespace))

/-- combine's `sep_by(p, sep)`: `p (sep p)*` or empty. -/
def psep_by (p : CParser α) (sep : CParser β) : CParser (List α) :=
  por
    (pmap (fun pr => pr.1 :: pr.2) (pseq p (pmany (pmap Prod.snd (pseq sep p)))))
    (ppure [])

/-! ## The query grammar (query_parser.rs, lines 117-144) -/

/-- The `Literal` (query_parser.rs line 117). -/
inductive Literal where
  | WithField (field : String) (value : String)
  | DefaultField (value : String)
deriving DecidableEq, Repr

/-- The `word`: `many1(satisfy(|c| c.is_alphanumeric()))`. -/
def word : CParser (List Char) :=
  pmany1 (psatisfy char_is_alphanumeric)

/-- The `phrase`: `(char('"'), many1(satisfy(|c| c != '"')), char('"')).map(|(_, s, _)| s)`. -/
def phrase : CParser (List Char) :=
  pmap (fun pr => pr.1.2)
    (pseq (pseq (pchar quote_char) (pmany1 (psatisfy (fun c => ! (c == quote_char)))))
      (pchar quote_char))

/-- The `term_val()`: `phrase.or(word)`. -/
def term_val : CParser (List Char) :=
  por phrase word

/-- The `field`: `many1(letter())`. -/
def field_name : CParser (List Char) :=
  pmany1 (psatisfy char_is_letter)

/-- The `term_query`: `(field, char(':'), term_val()).map(|(field, _, value)|
Literal::WithField(field, value))`. -/
def term_query : CParser Literal :=
  pmap (fun pr => Literal.WithField pr.1.1.asString pr.2.asString)
    (pseq (pseq field_name (pchar ':')) term_val)

/-- The `term_default_field`: `term_val().map(Literal::DefaultField)`. -/
def term_default_field : CParser Literal :=
  pmap (fun v => Literal.DefaultField v.asString) term_val

/-- The `literal()`: `try(term_query).or(term_default_field)`. -/
def literal : CParser Literal :=
  por (ptry term_query) term_default_field

/-- The `query_language` (query_parser.rs line 123):
`(sep_by(literal(), spaces()), eof()).map(|(first, _)| first)`. -/
def query_language : CParser (List Literal) :=
  pmap Prod.fst (pseq (psep_by literal pspaces) peof)

/-! ## QueryParser (query_parser.rs, lines 12-115) -/

/-- The `ParsingError` (query_parser.rs line 12). -/
inductive ParsingError where
  | SyntaxError
  | FieldDoesNotExist (name : String)
deriving DecidableEq, Repr

/-- The `MultiTermQuery`, abstracted to its term list (its search behaviour is
an external collaborator). -/
structure MultiTermQuery where
  terms : List Term
deriving DecidableEq, Repr

/-- The `MultiTermQuery::new`. -/
def MultiTermQuery.new (terms : List Term) : MultiTermQuery :=
  ⟨terms⟩

/-- The `MultiTermQuery::num_terms`. -/
def MultiTermQuery.num_terms (q : MultiTermQuery) : Nat :=
  q.terms.length

/-- The `StandardQuery` (query_parser.rs line 24). -/
inductive StandardQuery where
  | MultiTerm (q : MultiTermQuery)
deriving DecidableEq, Repr

/-- The `StandardQuery::num_terms`. -/
def StandardQuery.num_terms (q : StandardQuery) : Nat :=
  match q with
  | StandardQuery.MultiTerm mq => mq.num_terms

/-- The `QueryParser` (query_parser.rs line 18). -/
structure QueryParser where
  schema : Schema
  default_fields : List Field

/-- The `QueryParser::new`. -/
def QueryParser.new (schema : Schema) (default_fields : List Field) : QueryParser :=
  ⟨schema, default_fields⟩

/-- The `compute_terms` (query_parser.rs lines 49-62): one
`Term::from_field_text(field, token)` per token of the tokenizer stream. -/
def compute_terms (field : Field) (text : String) : List Term :=
  (tokenize text.data).map (fun tok => Term.from_field_text field tok.asString)

/-- The `QueryParser::transform_literal` (query_parser.rs lines 76-93). -/
def QueryParser.transform_literal (qp : QueryParser) (lit : Literal) :
    Except ParsingError (List Term) :=
  match lit with
  | Literal.DefaultField val =>
    Except.ok (qp.default_fields.flatMap (fun f => compute_terms f val))
  | Literal.WithField fname val =>
    match qp.schema.get_field fname with
    | some f => Except.ok (compute_terms f val)
    | none => Except.error (ParsingError.FieldDoesNotExist fname)

/-- The term-accumulation loop of `parse_query` (query_parser.rs lines
98-102): `transform_literal` per literal under `try!`, extending
`terms_result`. -/
def transform_loop (qp : QueryParser) : List Literal → List Term → Except ParsingError (List Term)
  | [], acc => Except.ok acc
  | lit :: rest, acc =>
    match qp.transform_literal lit with
    | Except.ok ts => transform_loop qp rest (acc ++ ts)
    | Except.error e => Except.error e

/-- Rust's `str::trim` on the character list (ASCII whitespace, as in
`char_is_whitespace`). -/
def rust_trim (l : List Char) : List Char :=
  ((l.dropWhile char_is_whitespace).reverse.dropWhile char_is_whitespace).reverse

/-- The `QueryParser::parse_query` (query_parser.rs lines 95-113):
`parser(query_language).parse(query.trim())`, then the literal
transformation loop; a grammar failure becomes `SyntaxError`. -/
def QueryParser.parse_query (qp : QueryParser) (query : List Char) :
    Except ParsingError StandardQuery :=
  match query_language (rust_trim query) with
  | PResult.ok _ literals _ =>
    match transform_loop qp literals [] with
    | Except.ok terms_result =>
      Except.ok (StandardQuery.MultiTerm (MultiTermQuery.new terms_result))
    | Except.error e => Except.error e
  | PResult.err _ => Except.error ParsingError.SyntaxError

/-- Whether the grammar accepts an (already trimmed) input. -/
def grammar_accepts (input : List Char) : Bool :=
  match query_language input with
  | PResult.ok _ _ _ => true
  | PResult.err _ => false

/-! ## Specification-side descriptions (for the refinement statements) -/

/-- The subscriptions the spec prescribes for one text field value (§4.6
step 2): one per token when `is_tokenized_indexed`, none otherwise. -/
def text_field_subscriptions (schema : Schema) (doc_id : DocId) (fv : TextFieldValue) :
    List (DocId × Term) :=
  if (schema.text_field_options fv.field).is_tokenized_indexed then
    (tokenize fv.text.data).map (fun tok => (doc_id, Term.from_field_text fv.field tok.asString))
  else
    []

/-- The subscriptions the spec prescribes for one u32 field value (§4.6
step 3). -/
def u32_field_subscriptions (schema : Schema) (doc_id : DocId) (fv : U32FieldValue) :
    List (DocId × Term) :=
  if (schema.u32_field_options fv.field).is_indexed then
    [(doc_id, Term.from_field_u32 fv.field fv.value)]
  else
    []

/-- All subscriptions the spec prescribes for one document at `doc_id`. -/
def document_subscriptions (schema : Schema) (doc_id : DocId) (doc : Document) :
    List (DocId × Term) :=
  doc.text_fields.flatMap (text_field_subscriptions schema doc_id)
    ++ doc.u32_fields.flatMap (u32_field_subscriptions schema doc_id)

/-- The stored-field row the code emits for a document: the text field
values whose options satisfy `is_stored`, in the document's own order. -/
def stored_row (schema : Schema) (doc : Document) : List (Field × String) :=
  (doc.text_fields.filter (fun tfv => (schema.text_field_options tfv.field).is_stored)).map
    (fun tfv => (tfv.field, tfv.text))

/-- Whether a literal's field reference resolves against the parser's
schema (a default-field literal always does). -/
def literal_resolves (qp : QueryParser) (lit : Literal) : Bool :=
  match lit with
  | Literal.DefaultField _ => true
  | Literal.WithField fname _ => (qp.schema.get_field fname).isSome

/-- The terms the spec prescribes for one literal (§4.8 semantic pass):
a default-field literal expands over `default_fields` in order; a
field-qualified literal tokenizes its value into terms of the resolved
field. -/
def literal_terms (qp : QueryParser) (lit : Literal) : List Term :=
  match lit with
  | Literal.DefaultField val => qp.default_fields.flatMap (fun f => compute_terms f val)
  | Literal.WithField fname val =>
    match qp.schema.get_field fname with
    | some f => compute_terms f val
    | none => []

/-- A sequence of `add_document` calls on one writer; `none` as soon as a
call fails (the worker `unwrap`s, so a failure ends the sequence). -/
def add_documents (w : SegmentWriter) : List Document → Schema → Option SegmentWriter
  | [], _ => some w
  | d :: ds, schema =>
    match w.add_document d schema with
    | (w', Except.ok _) => add_documents w' ds schema
    | (_, Except.error _) => none

/-! ## Concrete fixtures used by the witnesses and counterexamples -/

/-- A writer-side schema: two stored tokenized-indexed text fields and one
indexed fast u32 field. -/
def wschema : Schema :=
  ⟨[("a", FieldEntry.text ⟨true, true, true⟩),
    ("b", FieldEntry.text ⟨true, true, true⟩),
    ("n", FieldEntry.u32 ⟨true, true⟩)]⟩

/-- The schema of the repository's `tqp_fixture` test: text fields
`text`, `title`, `author`. -/
def test_schema : Schema :=
  ⟨[("text", FieldEntry.text ⟨true, false, true⟩),
    ("title", FieldEntry.text ⟨true, false, true⟩),
    ("author", FieldEntry.text ⟨true, false, true⟩)]⟩

/-- The query parser of that test: default fields `[text, author]`. -/
def tqp_fixture : QueryParser :=
  QueryParser.new test_schema [0, 2]

/-- A document whose text field values appear in the reverse of schema
order (field 1 before field 0). -/
def doc_rev : Document :=
  ⟨[⟨1, "b"⟩, ⟨0, "a"⟩], []⟩

/-- Two small documents. -/
def docA : Document :=
  ⟨[⟨0, "hello world"⟩], [⟨2, 5⟩]⟩

/-- See `docA`. -/
def docB : Document :=
  ⟨[⟨1, "foo"⟩], []⟩

/-- An I/O environment whose first operation fails with error code 7. -/
def fail_first : Nat → Option IOErr :=
  fun k => if k = 0 then some 7 else none

/-- A fresh writer over `wschema` with a never-failing serializer. -/
def fresh_writer : SegmentWriter :=
  SegmentWriter.for_segment (SegmentSerializer.fresh no_fail) wschema

/-- A fresh writer over `wschema` whose first serializer operation fails. -/
def failing_writer : SegmentWriter :=
  SegmentWriter.for_segment (SegmentSerializer.fresh fail_first) wschema

/-- A closed-channel `IndexWriter`. -/
def closed_index_writer : IndexWriter :=
  ⟨⟨[], true⟩⟩

/-! ## Lemmas about the segment writer -/

lemma foldl_suscribe_subs (d : DocId) (f : α → Term) :
    ∀ (ts : List α) (pw : PostingsWriter),
      (ts.foldl (fun pw t => pw.suscribe d (f t)) pw).subscriptions
        = pw.subscriptions ++ ts.map (fun t => (d, f t)) := by
  intro ts
  induction ts with
  | nil => intro pw; simp
  | cons t ts ih =>
    intro pw
    rw [List.foldl_cons, ih, PostingsWriter.suscribe]
    simp

lemma subscribe_text_field_subs (schema : Schema) (d : DocId) (pw : PostingsWriter)
    (fv : TextFieldValue) :
    (subscribe_text_field schema d pw fv).subscriptions
      = pw.subscriptions ++ text_field_subscriptions schema d fv := by
  simp only [subscribe_text_field, text_field_subscriptions]
  split
  · rw [foldl_suscribe_subs]
  · simp

lemma subscribe_u32_field_subs (schema : Schema) (d : DocId) (pw : PostingsWriter)
    (fv : U32FieldValue) :
    (subscribe_u32_field schema d pw fv).subscriptions
      = pw.subscriptions ++ u32_field_subscriptions schema d fv := by
  simp only [subscribe_u32_field, u32_field_subscriptions]
  split
  · simp [PostingsWriter.suscribe]
  · simp

lemma foldl_subscribe_text (schema : Schema) (d : DocId) :
    ∀ (l : List TextFieldValue) (pw : PostingsWriter),
      (l.foldl (subscribe_text_field schema d) pw).subscriptions
        = pw.subscriptions ++ l.flatMap (text_field_subscriptions schema d) := by
  intro l
  induction l with
  | nil => intro pw; simp
  | cons fv l ih =>
    intro pw
    simp only [List.foldl_cons, List.flatMap_cons, ih, subscribe_text_field_subs]
    simp

lemma foldl_subscribe_u32 (schema : Schema) (d : DocId) :
    ∀ (l : List U32FieldValue) (pw : PostingsWriter),
      (l.foldl (subscribe_u32_field schema d) pw).subscriptions
        = pw.subscriptions ++ l.flatMap (u32_field_subscriptions schema d) := by
  intro l
  induction l with
  | nil => intro pw; simp
  | cons fv l ih =>
    intro pw
    simp only [List.foldl_cons, List.flatMap_cons, ih, subscribe_u32_field_subs]
    simp

/-- The postings mutation of `add_document`, unconditionally (it happens
before the fallible `store_doc`, so also on the error path). -/
lemma add_document_postings_eq (w : SegmentWriter) (doc : Document) (schema : Schema) :
    ((w.add_document doc schema).1).postings_writer.subscriptions
      = w.postings_writer.subscriptions ++ document_subscriptions schema w.max_doc doc := by
  simp only [SegmentWriter.add_document, document_subscriptions]
  split
  · simp [foldl_subscribe_u32, foldl_subscribe_text, List.append_assoc]
  · simp [foldl_subscribe_u32, foldl_subscribe_text, List.append_assoc]

/-- The fast-field mutation of `add_document`, unconditionally. -/
lemma add_document_fast_fields_eq (w : SegmentWriter) (doc : Document) (schema : Schema) :
    ((w.add_document doc schema).1).fast_field_writers
      = w.fast_field_writers.add_document doc := by
  simp only [SegmentWriter.add_document]
  split <;> rfl

lemma add_document_max_doc_ok (w : SegmentWriter) (doc : Document) (schema : Schema)
    (w' : SegmentWriter) (u : Unit)
    (h : w.add_document doc schema = (w', Except.ok u)) : w'.max_doc = w.max_doc + 1 := by
  simp only [SegmentWriter.add_document] at h
  split at h
  · simp [Prod.mk.injEq] at h
  · simp only [Prod.mk.injEq] at h
    rw [← h.1]

lemma add_document_max_doc_err (w : SegmentWriter) (doc : Document) (schema : Schema)
    (w' : SegmentWriter) (e : IOErr)
    (h : w.add_document doc schema = (w', Except.error e)) : w'.max_doc = w.max_doc := by
  simp only [SegmentWriter.add_document] at h
  split at h
  · simp only [Prod.mk.injEq] at h
    rw [← h.1]
  · simp [Prod.mk.injEq] at h

lemma add_document_max_doc_le (w : SegmentWriter) (doc : Document) (schema : Schema) :
    ((w.add_document doc schema).1).max_doc ≤ w.max_doc + 1 := by
  rcases h : w.add_document doc schema with ⟨w', r⟩
  cases r with
  | ok u => simp [add_document_max_doc_ok w doc schema w' u h]
  | error e => simp [add_document_max_doc_err w doc schema w' e h, Nat.le_succ_of_le]

lemma add_documents_append (schema : Schema) :
    ∀ (l1 l2 : List Document) (w : SegmentWriter),
      add_documents w (l1 ++ l2) schema
        = (add_documents w l1 schema).bind (fun w1 => add_documents w1 l2 schema) := by
  intro l1
  induction l1 with
  | nil => intro l2 w; rfl
  | cons d ds ih =>
    intro l2 w
    simp only [List.cons_append, add_documents]
    rcases h : w.add_document d schema with ⟨w1, r⟩
    cases r with
    | ok u => exact ih l2 w1
    | error e => rfl

lemma add_documents_max_doc (schema : Schema) :
    ∀ (docs : List Document) (w w' : SegmentWriter),
      add_documents w docs schema = some w' → w'.max_doc = w.max_doc + docs.length := by
  intro docs
  induction docs with
  | nil =>
    intro w w' h
    simp only [add_documents, Option.some.injEq] at h
    simp [← h]
  | cons d ds ih =>
    intro w w' h
    simp only [add_documents] at h
    rcases hd : w.add_document d schema with ⟨w1, r⟩
    rw [hd] at h
    cases r with
    | ok u =>
      have h1 := ih w1 w' h
      have h2 := add_document_max_doc_ok w d schema w1 u hd
      simp only [List.length_cons]
      rw [h1, h2, Nat.add_assoc, Nat.add_comm 1 ds.length]
    | error e => exact absurd h (by simp)

/-! ## Lemmas about the worker loop -/

lemma worker_inner_max_doc_le (schema : Schema) :
    ∀ (iters : Nat) (w : SegmentWriter) (queue : List Document),
      ((worker_inner schema w queue iters).1).max_doc ≤ w.max_doc + iters := by
  intro iters
  induction iters with
  | zero => intro w queue; simp [worker_inner]
  | succ n ih =>
    intro w queue
    cases queue with
    | nil => simp [worker_inner]
    | cons d ds =>
      simp only [worker_inner]
      rcases h : w.add_document d schema with ⟨w1, r⟩
      cases r with
      | ok u =>
        have h1 := ih w1 ds
        rw [add_document_max_doc_ok w d schema w1 u h, Nat.add_assoc, Nat.add_comm 1 n] at h1
        exact h1
      | error e =>
        have h2 := add_document_max_doc_err w d schema w1 e h
        have h3 : w1.max_doc ≤ w.max_doc + (n + 1) := by
          rw [h2]
          exact Nat.le_add_right _ _
        exact h3

lemma for_segment_max_doc (ser : SegmentSerializer) (schema : Schema) :
    (SegmentWriter.for_segment ser schema).max_doc = 0 := rfl

lemma stored_docs_append_store (ev : List SEvent) (f : Nat → Option IOErr)
    (x : List (Field × String)) :
    (SegmentSerializer.mk (ev ++ [SEvent.storeDoc x]) f).stored_docs
      = (SegmentSerializer.mk ev f).stored_docs ++ [x] := by
  simp [SegmentSerializer.stored_docs, List.filterMap_append]

lemma run_op_ok (s : SegmentSerializer) (e : SEvent) (s' : SegmentSerializer) (u : Unit)
    (h : s.run_op e = (s', Except.ok u)) :
    s'.events = s.events ++ [e] ∧ s'.fail = s.fail := by
  simp only [SegmentSerializer.run_op] at h
  split at h
  · simp at h
  · simp only [Prod.mk.injEq] at h
    rw [← h.1]
    exact ⟨rfl, rfl⟩

/-! ## Claim theorems -/

/-- C1 (counterexample): the claim asserts that `finalize` performs, before
`close`, a serialization of the fast-field columns.  On a fresh writer over
a schema that declares a fast u32 field, the full operation log written by
`finalize` is postings serialization, the `SegmentInfo` write, and `close`:
it contains no fast-field serialization at all. -/
theorem finalize_no_fast_field_serialization :
    (SegmentWriter.finalize fresh_writer).1.events
        = [SEvent.serializePostings [], SEvent.writeSegmentInfo 0, SEvent.close]
      ∧ ((SegmentWriter.finalize fresh_writer).1.events.all
          (fun e => match e with
            | SEvent.serializeFastFields _ => false
            | _ => true)) = true := by
  constructor
  · rfl
  · rfl

/-- C1 (amended): whenever `finalize` succeeds, the operations it performed
on the segment serializer are exactly: serialize the postings, write
`SegmentInfo` containing the current `max_doc`, and `close`, in that order
with `close` last; no fast-field serialization is among them (fast-field
columns are serialized only by `SerializableSegment::write`). -/
theorem finalize_serializes_postings_info_then_close (w : SegmentWriter)
    (s : SegmentSerializer) (r : Except IOErr Unit)
    (h : w.finalize = (s, r)) (hr : r = Except.ok ()) :
    s.events = w.segment_serializer.events
      ++ [SEvent.serializePostings w.postings_writer.subscriptions,
          SEvent.writeSegmentInfo w.max_doc, SEvent.close] := by
  subst hr
  simp only [SegmentWriter.finalize, PostingsWriter.serialize,
    SegmentSerializer.write_segment_info, SegmentSerializer.close] at h
  rcases h1 : w.segment_serializer.run_op
      (SEvent.serializePostings w.postings_writer.subscriptions) with ⟨s1, r1⟩
  rw [h1] at h
  cases r1 with
  | error e1 => simp at h
  | ok u1 =>
    dsimp only at h
    rcases h2 : s1.run_op (SEvent.writeSegmentInfo w.max_doc) with ⟨s2, r2⟩
    rw [h2] at h
    cases r2 with
    | error e2 => simp at h
    | ok u2 =>
      dsimp only at h
      obtain ⟨hev1, -⟩ := run_op_ok _ _ _ _ h1
      obtain ⟨hev2, -⟩ := run_op_ok _ _ _ _ h2
      obtain ⟨hev3, -⟩ := run_op_ok _ _ _ _ h
      rw [hev3, hev2, hev1]
      simp [List.append_assoc]

/-- C1 (witness): the amended theorem applied to the concrete fresh writer
over `wschema` with the never-failing serializer. -/
theorem finalize_serializes_postings_info_then_close_witness :
    (SegmentWriter.finalize fresh_writer).1.events
      = fresh_writer.segment_serializer.events
        ++ [SEvent.serializePostings fresh_writer.postings_writer.subscriptions,
            SEvent.writeSegmentInfo fresh_writer.max_doc, SEvent.close] :=
  finalize_serializes_postings_info_then_close fresh_writer
    (SegmentWriter.finalize fresh_writer).1 (SegmentWriter.finalize fresh_writer).2 rfl rfl

/-- C3: `add_document` subscribes, per text field value whose options
satisfy `is_tokenized_indexed`, exactly one `(doc_id, Term(field, token))`
per token the tokenizer yields, in stream order, and nothing for a text
field value whose options do not satisfy it (then the u32 subscriptions);
`document_subscriptions` is that specification, and the equation holds on
the error path too, since the postings mutation precedes `store_doc`. -/
theorem add_document_subscribes_once_per_token (w : SegmentWriter) (doc : Document)
    (schema : Schema) :
    ((w.add_document doc schema).1).postings_writer.subscriptions
      = w.postings_writer.subscriptions ++ document_subscriptions schema w.max_doc doc :=
  add_document_postings_eq w doc schema

/-- C6 (counterexample): the claim asserts stored fields are emitted in
schema order.  For `doc_rev`, whose two stored text field values appear as
field 1 then field 0, the emitted row keeps the document's order `[(1, b),
(0, a)]`, not the schema order `[(0, a), (1, b)]`. -/
theorem stored_fields_not_schema_order :
    ((fresh_writer.add_document doc_rev wschema).1).segment_serializer.stored_docs
        = [[(1, "b"), (0, "a")]]
      ∧ ((fresh_writer.add_document doc_rev wschema).1).segment_serializer.stored_docs
        ≠ [[(0, "a"), (1, "b")]] := by
  constructor
  · rfl
  · decide

/-- C6 (amended): on success, the row `add_document` emits to `store_doc`
consists of exactly the document's text field values whose options satisfy
`is_stored`, iterated in the document's own field-value order (not schema
order). -/
theorem stored_fields_document_order (w : SegmentWriter) (doc : Document) (schema : Schema)
    (w' : SegmentWriter) (r : Except IOErr Unit)
    (h : w.add_document doc schema = (w', r)) (hr : r = Except.ok ()) :
    w'.segment_serializer.stored_docs
      = w.segment_serializer.stored_docs ++ [stored_row schema doc] := by
  subst hr
  simp only [SegmentWriter.add_document] at h
  rcases h1 : w.segment_serializer.store_doc
      ((doc.text_fields.filter
          (fun tfv => (schema.text_field_options tfv.field).is_stored)).map
        (fun tfv => (tfv.field, tfv.text))) with ⟨ser, r1⟩
  rw [h1] at h
  cases r1 with
  | error e1 => simp at h
  | ok u1 =>
    simp only [Prod.mk.injEq] at h
    rw [SegmentSerializer.store_doc] at h1
    obtain ⟨hev, -⟩ := run_op_ok _ _ _ _ h1
    rw [← h.1]
    simp only []
    simp [SegmentSerializer.stored_docs, hev, List.filterMap_append, stored_row]

/-- C6 (witness): the amended theorem applied to `fresh_writer` and
`docA`. -/
theorem stored_fields_document_order_witness :
    ((fresh_writer.add_document docA wschema).1).segment_serializer.stored_docs
      = fresh_writer.segment_serializer.stored_docs ++ [stored_row wschema docA] :=
  stored_fields_document_order fresh_writer docA wschema
    (fresh_writer.add_document docA wschema).1 (fresh_writer.add_document docA wschema).2 rfl rfl

/-- C8: `IndexWriter::add_document` returns `Ok(())` for every writer state
and document; when the channel is closed the underlying `send` fails, but
its result is discarded, the document is dropped, and no error reaches the
caller. -/
theorem index_writer_add_document_always_ok (iw : IndexWriter) (doc : Document) :
    (iw.add_document doc).2 = Except.ok ()
      ∧ (iw.queue_input.closed = true →
          ((iw.queue_input.send doc).2 = Except.error ()
            ∧ (iw.add_document doc).1.queue_input.queue = iw.queue_input.queue)) := by
  constructor
  · rfl
  · intro hc
    constructor
    · simp [DocChannel.send, hc]
    · simp [IndexWriter.add_document, DocChannel.send, hc]

/-- C8 (witness): the theorem at a concrete closed-channel writer. -/
theorem index_writer_add_document_always_ok_witness :
    (closed_index_writer.add_document docA).2 = Except.ok ()
      ∧ (closed_index_writer.queue_input.send docA).2 = Except.error () :=
  ⟨(index_writer_add_document_always_ok closed_index_writer docA).1,
   ((index_writer_add_document_always_ok closed_index_writer docA).2 rfl).1⟩

/-- C9: `add_document` is not atomic on error: when the `store_doc`
operation fails with an I/O error, the call propagates exactly that error;
`max_doc` and the stored-field stream are unchanged, but the postings
writer already retains every subscription of the failed document and the
fast-field writers already retain its column cells. -/
theorem add_document_store_error_not_atomic (w : SegmentWriter) (doc : Document)
    (schema : Schema) (e : IOErr)
    (hfail : w.segment_serializer.fail w.segment_serializer.events.length = some e) :
    (w.add_document doc schema).2 = Except.error e
      ∧ ((w.add_document doc schema).1).max_doc = w.max_doc
      ∧ ((w.add_document doc schema).1).segment_serializer.events
          = w.segment_serializer.events
      ∧ ((w.add_document doc schema).1).postings_writer.subscriptions
          = w.postings_writer.subscriptions ++ document_subscriptions schema w.max_doc doc
      ∧ ((w.add_document doc schema).1).fast_field_writers
          = w.fast_field_writers.add_document doc := by
  refine ⟨?_, ?_, ?_, add_document_postings_eq w doc schema,
    add_document_fast_fields_eq w doc schema⟩
  · simp [SegmentWriter.add_document, SegmentSerializer.store_doc,
      SegmentSerializer.run_op, hfail]
  · simp [SegmentWriter.add_document, SegmentSerializer.store_doc,
      SegmentSerializer.run_op, hfail]
  · simp [SegmentWriter.add_document, SegmentSerializer.store_doc,
      SegmentSerializer.run_op, hfail]

/-- C7: every segment a worker produces is finalized with
`max_doc ≤ SEGMENT_ROLL = 500`: the inner loop performs at most
`SEGMENT_ROLL` `add_document` calls per segment, each raising `max_doc` by
at most one from its initial 0.  Holds for every queue, every failure
environment, and every outer-loop fuel. -/
theorem worker_segment_max_doc_le_roll (schema : Schema) (mk : Nat → SegmentSerializer)
    (fuel : Nat) (queue : List Document) (round : Nat) :
    ((worker schema mk fuel queue round).all
      (fun sw => decide (sw.max_doc ≤ SEGMENT_ROLL))) = true := by
  induction fuel generalizing queue round with
  | zero => rfl
  | succ n ih =>
    simp only [worker]
    rcases hwi : worker_inner schema (SegmentWriter.for_segment (mk round) schema)
        queue SEGMENT_ROLL with ⟨w, rest, dr, pk⟩
    have hb : w.max_doc ≤ SEGMENT_ROLL := by
      have hle := worker_inner_max_doc_le schema SEGMENT_ROLL
        (SegmentWriter.for_segment (mk round) schema) queue
      rw [hwi, for_segment_max_doc] at hle
      simpa using hle
    dsimp only
    cases pk with
    | true => simp
    | false =>
      rcases hf : w.finalize with ⟨sfin, rf⟩
      cases rf with
      | error e => simp
      | ok u =>
        cases dr with
        | true => simp [List.all_cons, decide_eq_true hb, ih]
        | false => simp [decide_eq_true hb]

/-- C2: starting from a fresh writer (`max_doc = 0`), a run of `n`
successful `add_document` calls reaches `max_doc = n`; after any `i` calls
the writer sits at `max_doc = i`, and the `i`-th call (0-based) succeeds,
uses `doc_id = i` (all postings it subscribes carry DocId `i`), and leaves
`max_doc = i + 1` — so the assigned DocIds are exactly `0, 1, ..., n - 1`,
with no gaps and no reassignment. -/
theorem add_document_docids_contiguous (ser : SegmentSerializer) (schema : Schema)
    (docs : List Document) (w' : SegmentWriter)
    (h : add_documents (SegmentWriter.for_segment ser schema) docs schema = some w') :
    w'.max_doc = docs.length
    ∧ (∀ i, i ≤ docs.length →
        ∃ wi, add_documents (SegmentWriter.for_segment ser schema) (docs.take i) schema
            = some wi
          ∧ wi.max_doc = i)
    ∧ (∀ i, ∀ hi : i < docs.length, ∀ wi w2 r,
        add_documents (SegmentWriter.for_segment ser schema) (docs.take i) schema = some wi →
        wi.add_document docs[i] schema = (w2, r) →
        r = Except.ok () ∧ w2.max_doc = i + 1
          ∧ w2.postings_writer.subscriptions
              = wi.postings_writer.subscriptions ++ document_subscriptions schema i docs[i]) := by
  have hmax : ∀ (l : List Document) (wi : SegmentWriter),
      add_documents (SegmentWriter.for_segment ser schema) l schema = some wi →
      wi.max_doc = l.length := by
    intro l wi hl
    have := add_documents_max_doc schema l (SegmentWriter.for_segment ser schema) wi hl
    rwa [for_segment_max_doc, Nat.zero_add] at this
  have htake : ∀ i, i ≤ docs.length →
      ∃ wi, add_documents (SegmentWriter.for_segment ser schema) (docs.take i) schema = some wi
        ∧ wi.max_doc = i := by
    intro i hi
    have hsplit := add_documents_append schema (docs.take i) (docs.drop i)
      (SegmentWriter.for_segment ser schema)
    rw [List.take_append_drop] at hsplit
    rw [hsplit] at h
    cases ht : add_documents (SegmentWriter.for_segment ser schema) (docs.take i) schema with
    | none => rw [ht] at h; simp at h
    | some wi =>
      refine ⟨wi, rfl, ?_⟩
      have := hmax (docs.take i) wi ht
      rwa [List.length_take, Nat.min_eq_left hi] at this
  refine ⟨hmax docs w' h, htake, ?_⟩
  intro i hi wi w2 r ht hstep
  have hwimax : wi.max_doc = i := by
    have := hmax (docs.take i) wi ht
    rwa [List.length_take, Nat.min_eq_left (Nat.le_of_lt hi)] at this
  have hpost := add_document_postings_eq wi docs[i] schema
  rw [hstep] at hpost
  have hsplit := add_documents_append schema (docs.take i) (docs.drop i)
    (SegmentWriter.for_segment ser schema)
  rw [List.take_append_drop] at hsplit
  rw [hsplit, ht] at h
  simp only [Option.some_bind] at h
  rw [List.drop_eq_getElem_cons hi] at h
  simp only [add_documents] at h
  rw [hstep] at h
  cases r with
  | error e => simp at h
  | ok u =>
    cases u
    refine ⟨rfl, ?_, ?_⟩
    · rw [add_document_max_doc_ok wi docs[i] schema w2 () hstep, hwimax]
    · rw [hwimax] at hpost
      exact hpost

/-- C2 (witness): two successful calls on a fresh writer over `wschema`
reach `max_doc = 2`. -/
theorem add_document_docids_contiguous_witness :
    ∃ w', add_documents (SegmentWriter.for_segment (SegmentSerializer.fresh no_fail) wschema)
        [docA, docB] wschema = some w'
      ∧ w'.max_doc = 2 := by
  refine ⟨_, rfl, ?_⟩
  exact (add_document_docids_contiguous (SegmentSerializer.fresh no_fail) wschema
    [docA, docB] _ rfl).1

/-- C9 (witness): the theorem at `failing_writer` (whose first serializer
operation fails with error code 7) and `docA`. -/
theorem add_document_store_error_not_atomic_witness :
    (failing_writer.add_document docA wschema).2 = Except.error 7
      ∧ ((failing_writer.add_document docA wschema).1).max_doc = failing_writer.max_doc
      ∧ ((failing_writer.add_document docA wschema).1).postings_writer.subscriptions
          = failing_writer.postings_writer.subscriptions
            ++ document_subscriptions wschema failing_writer.max_doc docA :=
  ⟨(add_document_store_error_not_atomic failing_writer docA wschema 7 rfl).1,
   (add_document_store_error_not_atomic failing_writer docA wschema 7 rfl).2.1,
   (add_document_store_error_not_atomic failing_writer docA wschema 7 rfl).2.2.2.1⟩


/-! ## Lemmas about the parser combinators -/

lemma takeWhile_append_stop (q : Char → Bool) :
    ∀ (l : List Char) (a : Char) (r : List Char),
      (∀ c ∈ l, q c = true) → q a = false →
      (l ++ a :: r).takeWhile q = l ∧ (l ++ a :: r).dropWhile q = a :: r := by
  intro l
  induction l with
  | nil =>
    intro a r _ ha
    simp [List.takeWhile_cons, List.dropWhile_cons, ha]
  | cons c cs ih =>
    intro a r hl ha
    have hc : q c = true := hl c (List.mem_cons_self c cs)
    have hcs : ∀ x ∈ cs, q x = true := fun x hx => hl x (List.mem_cons_of_mem c hx)
    obtain ⟨h1, h2⟩ := ih a r hcs ha
    simp [List.takeWhile_cons, List.dropWhile_cons, hc, h1, h2]

lemma takeWhile_length_le (q : Char → Bool) :
    ∀ (l : List Char), (l.takeWhile q).length ≤ l.length := by
  intro l
  induction l with
  | nil => simp
  | cons c cs ih =>
    rw [List.takeWhile_cons]
    by_cases hc : q c = true
    · simp only [hc, if_pos rfl, List.length_cons]
      exact Nat.succ_le_succ ih
    · simp only [hc]
      simp

lemma pmanyAux_psatisfy (q : Char → Bool) :
    ∀ (input : List Char) (fuel : Nat) (c0 : Bool) (acc : List Char),
      (input.takeWhile q).length < fuel →
      pmanyAux (psatisfy q) fuel c0 acc input
        = PResult.ok (c0 || !(input.takeWhile q).isEmpty)
            (acc.reverse ++ input.takeWhile q) (input.dropWhile q) := by
  intro input
  induction input with
  | nil =>
    intro fuel c0 acc hfuel
    cases fuel with
    | zero => exact absurd hfuel (by simp)
    | succ n => simp [pmanyAux, psatisfy]
  | cons c cs ih =>
    intro fuel c0 acc hfuel
    cases fuel with
    | zero => exact absurd hfuel (by simp)
    | succ n =>
      by_cases hc : q c = true
      · have hstep : pmanyAux (psatisfy q) (n + 1) c0 acc (c :: cs)
            = pmanyAux (psatisfy q) n true (c :: acc) cs := by
          simp [pmanyAux, psatisfy, hc]
        have hn : (cs.takeWhile q).length < n := by
          rw [List.takeWhile_cons, if_pos hc] at hfuel
          simp only [List.length_cons] at hfuel
          exact Nat.lt_of_succ_lt_succ hfuel
        rw [hstep, ih n true (c :: acc) hn, List.takeWhile_cons, if_pos hc,
          List.dropWhile_cons]
        simp [hc]
      · have hc2 : q c = false := by
          cases hq : q c
          · rfl
          · exact absurd hq hc
        have hstep : pmanyAux (psatisfy q) (n + 1) c0 acc (c :: cs)
            = PResult.ok c0 acc.reverse (c :: cs) := by
          simp [pmanyAux, psatisfy, hc2]
        rw [hstep, List.takeWhile_cons, if_neg (by simp [hc2]), List.dropWhile_cons]
        simp [hc2]

lemma pmany_psatisfy (q : Char → Bool) (input : List Char) :
    pmany (psatisfy q) input
      = PResult.ok (!(input.takeWhile q).isEmpty) (input.takeWhile q) (input.dropWhile q) := by
  rw [pmany, pmanyAux_psatisfy q input (input.length + 1) false []
    (Nat.lt_succ_of_le (takeWhile_length_le q input))]
  simp

lemma pmany1_psatisfy_nil (q : Char → Bool) : pmany1 (psatisfy q) [] = PResult.err false := rfl

lemma pmany1_psatisfy_cons (q : Char → Bool) (c : Char) (cs : List Char) :
    pmany1 (psatisfy q) (c :: cs)
      = if q c then PResult.ok true (c :: cs.takeWhile q) (cs.dropWhile q)
        else PResult.err false := by
  by_cases hc : q c = true
  · have h1 : psatisfy q (c :: cs) = PResult.ok true c cs := by simp [psatisfy, hc]
    simp only [pmany1, pmap, pseq]
    rw [h1]
    dsimp only
    rw [pmany_psatisfy]
    simp [hc]
  · have hc2 : q c = false := by
      cases hq : q c
      · rfl
      · exact absurd hq hc
    simp [pmany1, pmap, pseq, psatisfy, hc2]

/-- The `many1(satisfy q)` on a non-empty maximal run: consumes exactly the
run. -/
lemma pmany1_psatisfy_run (q : Char → Bool) (l : List Char) (a : Char) (r : List Char)
    (hne : l ≠ []) (hl : ∀ c ∈ l, q c = true) (ha : q a = false) :
    pmany1 (psatisfy q) (l ++ a :: r) = PResult.ok true l (a :: r) := by
  cases l with
  | nil => exact absurd rfl hne
  | cons c cs =>
    have hc : q c = true := hl c (List.mem_cons_self c cs)
    have hcs : ∀ x ∈ cs, q x = true := fun x hx => hl x (List.mem_cons_of_mem c hx)
    obtain ⟨h1, h2⟩ := takeWhile_append_stop q cs a r hcs ha
    rw [List.cons_append, pmany1_psatisfy_cons, if_pos hc, h1, h2]


/-! ## Character classes, trimming and tokenizer lemmas -/

lemma not_ws_of_letter (c : Char) (h : char_is_letter c = true) :
    char_is_whitespace c = false := by
  by_contra hw
  rw [Bool.not_eq_false] at hw
  have h2 : c = ' ' ∨ c = '\t' ∨ c = '\n' ∨ c = '\r' := by
    simpa [char_is_whitespace, Bool.or_eq_true, beq_iff_eq, or_assoc] using hw
  rcases h2 with rfl | rfl | rfl | rfl <;> exact absurd h (by decide)

lemma rust_trim_letter_quote (c0 : Char) (mid : List Char)
    (hc0 : char_is_whitespace c0 = false) :
    rust_trim ((c0 :: mid) ++ [quote_char]) = (c0 :: mid) ++ [quote_char] := by
  have h1 : List.dropWhile char_is_whitespace ((c0 :: mid) ++ [quote_char])
      = (c0 :: mid) ++ [quote_char] := by
    rw [List.cons_append, List.dropWhile_cons]
    simp [hc0]
  have h2 : ((c0 :: mid) ++ [quote_char]).reverse
      = quote_char :: (c0 :: mid).reverse := by
    rw [List.reverse_append]
    rfl
  rw [rust_trim, h1, h2, List.dropWhile_cons]
  have hq : char_is_whitespace quote_char = false := by decide
  simp [hq]

lemma tokenize_go_no_alnum :
    ∀ (l : List Char), (∀ c ∈ l, char_is_alphanumeric c = false) → tokenize_go [] l = [] := by
  intro l
  induction l with
  | nil => intro _; rfl
  | cons c cs ih =>
    intro h
    have hc := h c (List.mem_cons_self c cs)
    simp only [tokenize_go, hc]
    simp only [List.isEmpty_nil, if_true, Bool.false_eq_true, if_false]
    exact ih (fun x hx => h x (List.mem_cons_of_mem c hx))

lemma tokenize_no_alnum (l : List Char) (h : ∀ c ∈ l, char_is_alphanumeric c = false) :
    tokenize l = [] :=
  tokenize_go_no_alnum l h

/-! ## Lemmas about the literal transformation loop -/

lemma transform_literal_not_syntax (qp : QueryParser) (lit : Literal) :
    qp.transform_literal lit ≠ Except.error ParsingError.SyntaxError := by
  cases lit with
  | DefaultField v => simp [QueryParser.transform_literal]
  | WithField fname v =>
    simp only [QueryParser.transform_literal]
    cases qp.schema.get_field fname with
    | some f => simp
    | none => simp

lemma transform_literal_resolves (qp : QueryParser) (lit : Literal)
    (h : literal_resolves qp lit = true) :
    qp.transform_literal lit = Except.ok (literal_terms qp lit) := by
  cases lit with
  | DefaultField v => rfl
  | WithField fname v =>
    simp only [literal_resolves] at h
    cases hf : qp.schema.get_field fname with
    | none => rw [hf] at h; simp at h
    | some f => simp [QueryParser.transform_literal, literal_terms, hf]

lemma transform_loop_not_syntax (qp : QueryParser) :
    ∀ (lits : List Literal) (acc : List Term),
      transform_loop qp lits acc ≠ Except.error ParsingError.SyntaxError := by
  intro lits
  induction lits with
  | nil => intro acc; simp [transform_loop]
  | cons lit rest ih =>
    intro acc
    simp only [transform_loop]
    cases h : qp.transform_literal lit with
    | ok ts => exact ih (acc ++ ts)
    | error e =>
      intro hc
      dsimp only at hc
      injection hc with he
      subst he
      exact transform_literal_not_syntax qp lit h

lemma transform_loop_resolves (qp : QueryParser) :
    ∀ (lits : List Literal) (acc : List Term),
      (∀ lit ∈ lits, literal_resolves qp lit = true) →
      transform_loop qp lits acc = Except.ok (acc ++ lits.flatMap (literal_terms qp)) := by
  intro lits
  induction lits with
  | nil => intro acc _; simp [transform_loop]
  | cons lit rest ih =>
    intro acc h
    have hlit := h lit (List.mem_cons_self lit rest)
    have hrest : ∀ l ∈ rest, literal_resolves qp l = true :=
      fun l hl => h l (List.mem_cons_of_mem lit hl)
    simp only [transform_loop]
    rw [transform_literal_resolves qp lit hlit]
    dsimp only
    rw [ih (acc ++ literal_terms qp lit) hrest]
    simp [List.flatMap_cons, List.append_assoc]

lemma transform_loop_first_unresolved (qp : QueryParser) :
    ∀ (l1 : List Literal) (fname v : String) (l2 : List Literal) (acc : List Term),
      (∀ lit ∈ l1, literal_resolves qp lit = true) →
      qp.schema.get_field fname = none →
      transform_loop qp (l1 ++ Literal.WithField fname v :: l2) acc
        = Except.error (ParsingError.FieldDoesNotExist fname) := by
  intro l1
  induction l1 with
  | nil =>
    intro fname v l2 acc _ hf
    simp [transform_loop, QueryParser.transform_literal, hf]
  | cons lit rest ih =>
    intro fname v l2 acc h hf
    have hlit := h lit (List.mem_cons_self lit rest)
    have hrest : ∀ l ∈ rest, literal_resolves qp l = true :=
      fun l hl => h l (List.mem_cons_of_mem lit hl)
    simp only [List.cons_append, transform_loop]
    rw [transform_literal_resolves qp lit hlit]
    dsimp only
    exact ih fname v l2 (acc ++ literal_terms qp lit) hrest hf


/-! ## Running the grammar on a field:"phrase" input -/

lemma pchar_cons_self (c : Char) (rest : List Char) :
    pchar c (c :: rest) = PResult.ok true c rest := by
  simp [pchar, psatisfy]

lemma literal_nil : literal [] = PResult.err false := rfl

lemma phrase_run (p : List Char) (hp : p ≠ [])
    (hpq : ∀ c ∈ p, (c == quote_char) = false) :
    phrase (quote_char :: (p ++ [quote_char])) = PResult.ok true p [] := by
  have hinner : pmany1 (psatisfy (fun c => ! (c == quote_char))) (p ++ [quote_char])
      = PResult.ok true p [quote_char] := by
    have hall : ∀ c ∈ p, (fun c => ! (c == quote_char)) c = true := by
      intro c hc
      simp only [hpq c hc]
      rfl
    have hstop : (fun c => ! (c == quote_char)) quote_char = false := by simp
    exact pmany1_psatisfy_run (fun c => ! (c == quote_char)) p quote_char [] hp hall hstop
  simp only [phrase, pmap, pseq]
  rw [pchar_cons_self]
  dsimp only
  rw [hinner]
  dsimp only
  rw [pchar_cons_self]
  rfl

lemma term_val_phrase (p : List Char) (hp : p ≠ [])
    (hpq : ∀ c ∈ p, (c == quote_char) = false) :
    term_val (quote_char :: (p ++ [quote_char])) = PResult.ok true p [] := by
  simp only [term_val, por]
  rw [phrase_run p hp hpq]

lemma term_query_field_phrase (name p : List Char)
    (hn : name ≠ []) (hletters : ∀ c ∈ name, char_is_letter c = true)
    (hp : p ≠ []) (hpq : ∀ c ∈ p, (c == quote_char) = false) :
    term_query (name ++ ':' :: quote_char :: (p ++ [quote_char]))
      = PResult.ok true (Literal.WithField name.asString p.asString) [] := by
  have hfield : field_name (name ++ ':' :: quote_char :: (p ++ [quote_char]))
      = PResult.ok true name (':' :: quote_char :: (p ++ [quote_char])) :=
    pmany1_psatisfy_run char_is_letter name ':' (quote_char :: (p ++ [quote_char]))
      hn hletters (by decide)
  simp only [term_query, pmap, pseq]
  rw [hfield]
  dsimp only
  rw [pchar_cons_self]
  dsimp only
  rw [term_val_phrase p hp hpq]
  rfl

lemma literal_field_phrase (name p : List Char)
    (hn : name ≠ []) (hletters : ∀ c ∈ name, char_is_letter c = true)
    (hp : p ≠ []) (hpq : ∀ c ∈ p, (c == quote_char) = false) :
    literal (name ++ ':' :: quote_char :: (p ++ [quote_char]))
      = PResult.ok true (Literal.WithField name.asString p.asString) [] := by
  simp only [literal, por, ptry]
  rw [term_query_field_phrase name p hn hletters hp hpq]

lemma query_language_field_phrase (name p : List Char)
    (hn : name ≠ []) (hletters : ∀ c ∈ name, char_is_letter c = true)
    (hp : p ≠ []) (hpq : ∀ c ∈ p, (c == quote_char) = false) :
    query_language (name ++ ':' :: quote_char :: (p ++ [quote_char]))
      = PResult.ok true [Literal.WithField name.asString p.asString] [] := by
  have hmany : pmany (pmap Prod.snd (pseq pspaces literal)) ([] : List Char)
      = PResult.ok false [] [] := rfl
  have hsep : psep_by literal pspaces (name ++ ':' :: quote_char :: (p ++ [quote_char]))
      = PResult.ok true [Literal.WithField name.asString p.asString] [] := by
    simp only [psep_by, por, pmap, pseq]
    rw [literal_field_phrase name p hn hletters hp hpq]
    dsimp only
    rw [hmany]
    rfl
  simp only [query_language, pmap, pseq]
  rw [hsep]
  rfl


/-- C4: for every query the grammar accepts and whose field-qualified
literals all resolve, `parse_query` returns the `MultiTermQuery` whose term
list is the concatenation, in literal order, of each literal's terms —
`literal_terms` is the spec's semantic pass: a field-qualified literal's
value tokenized into terms of the resolved field, a default-field literal
expanded over `default_fields` in order.  The two end-to-end scenarios of
the spec are instances. -/
theorem parse_query_concatenates_literal_terms :
    (∀ (qp : QueryParser) (q : List Char) (c : Bool) (lits : List Literal) (rest : List Char),
        query_language (rust_trim q) = PResult.ok c lits rest →
        (∀ lit ∈ lits, literal_resolves qp lit = true) →
        qp.parse_query q
          = Except.ok (StandardQuery.MultiTerm
              (MultiTermQuery.new (lits.flatMap (literal_terms qp)))))
    ∧ tqp_fixture.parse_query ("title:abctitle".toList)
        = Except.ok (StandardQuery.MultiTerm
            (MultiTermQuery.new [Term.from_field_text 1 "abctitle"]))
    ∧ tqp_fixture.parse_query ("abctitle".toList)
        = Except.ok (StandardQuery.MultiTerm
            (MultiTermQuery.new [Term.from_field_text 0 "abctitle",
              Term.from_field_text 2 "abctitle"])) := by
  refine ⟨?_, rfl, rfl⟩
  intro qp q c lits rest hg hres
  simp only [QueryParser.parse_query, hg]
  rw [transform_loop_resolves qp lits [] hres]
  simp

/-- C4 (witness): the general statement applied to the concrete parser of
the repository's test and the accepted query `author:toto`. -/
theorem parse_query_concatenates_literal_terms_witness :
    tqp_fixture.parse_query ("author:toto".toList)
      = Except.ok (StandardQuery.MultiTerm
          (MultiTermQuery.new
            ([Literal.WithField "author" "toto"].flatMap (literal_terms tqp_fixture)))) :=
  parse_query_concatenates_literal_terms.1 tqp_fixture ("author:toto".toList)
    true [Literal.WithField "author" "toto"] [] rfl (by decide)

/-- C5: `parse_query` fails with `SyntaxError` exactly when the grammar
rejects the trimmed input (the five inputs of the repository's
`test_invalid_queries` test are all rejected); when the grammar accepts and
a field-qualified literal with an unknown name follows only resolvable
literals, it fails with `FieldDoesNotExist` of that name; and the empty
input succeeds with a zero-term query. -/
theorem parse_query_error_conditions (qp : QueryParser) :
    (∀ q : List Char,
        qp.parse_query q = Except.error ParsingError.SyntaxError
          ↔ grammar_accepts (rust_trim q) = false)
    ∧ grammar_accepts ("ab!c:".toList) = false
    ∧ grammar_accepts (":fval".toList) = false
    ∧ grammar_accepts ("field:".toList) = false
    ∧ grammar_accepts (":field".toList) = false
    ∧ grammar_accepts ("f:@e!e".toList) = false
    ∧ (∀ (q : List Char) (c : Bool) (l1 l2 : List Literal) (fname v : String)
          (rest : List Char),
        query_language (rust_trim q)
            = PResult.ok c (l1 ++ Literal.WithField fname v :: l2) rest →
        (∀ lit ∈ l1, literal_resolves qp lit = true) →
        qp.schema.get_field fname = none →
        qp.parse_query q = Except.error (ParsingError.FieldDoesNotExist fname))
    ∧ qp.parse_query [] = Except.ok (StandardQuery.MultiTerm (MultiTermQuery.new [])) := by
  refine ⟨?_, rfl, rfl, rfl, rfl, rfl, ?_, rfl⟩
  · intro q
    cases hg : query_language (rust_trim q) with
    | ok c lits rest =>
      constructor
      · intro he
        exfalso
        simp only [QueryParser.parse_query, hg] at he
        cases ht : transform_loop qp lits [] with
        | ok ts => rw [ht] at he; simp at he
        | error e =>
          rw [ht] at he
          dsimp only at he
          injection he with he2
          subst he2
          exact transform_loop_not_syntax qp lits [] ht
      · intro hacc
        simp only [grammar_accepts, hg] at hacc
        exact absurd hacc (by decide)
    | err b =>
      constructor
      · intro _
        simp [grammar_accepts, hg]
      · intro _
        simp [QueryParser.parse_query, hg]
  · intro q c l1 l2 fname v rest hg hres hf
    simp only [QueryParser.parse_query, hg]
    rw [transform_loop_first_unresolved qp l1 fname v l2 [] hres hf]

/-- C5 (witness): the theorem at the test parser: `a:b` (unknown field `a`)
gives `FieldDoesNotExist "a")`, and `ab!c:` is a `SyntaxError`. -/
theorem parse_query_error_conditions_witness :
    tqp_fixture.parse_query ("a:b".toList)
        = Except.error (ParsingError.FieldDoesNotExist "a")
      ∧ tqp_fixture.parse_query ("ab!c:".toList)
        = Except.error ParsingError.SyntaxError :=
  ⟨(parse_query_error_conditions tqp_fixture).2.2.2.2.2.2.1 ("a:b".toList)
      true [] [] "a" "b" [] rfl (by simp) rfl,
   ((parse_query_error_conditions tqp_fixture).1 ("ab!c:".toList)).mpr rfl⟩

/-- C10: a grammatically valid query can produce a query with zero terms
from a non-empty literal: for any schema-registered field name (non-empty,
all letters), the input `name:"p"` with `p` non-empty, quote-free and
containing no alphanumeric character parses successfully, `p` tokenizes to
no tokens, and the resulting query has no terms. -/
theorem parse_query_phrase_no_tokens_zero_terms (qp : QueryParser) (name p : List Char)
    (f : Field)
    (hres : qp.schema.get_field name.asString = some f)
    (hn : name ≠ []) (hletters : ∀ c ∈ name, char_is_letter c = true)
    (hp : p ≠ [])
    (hpc : ∀ c ∈ p, (c == quote_char) = false ∧ char_is_alphanumeric c = false) :
    tokenize p = []
      ∧ qp.parse_query (name ++ ':' :: quote_char :: (p ++ [quote_char]))
          = Except.ok (StandardQuery.MultiTerm (MultiTermQuery.new [])) := by
  have htok : tokenize p = [] := tokenize_no_alnum p (fun c hc => (hpc c hc).2)
  refine ⟨htok, ?_⟩
  have hg := query_language_field_phrase name p hn hletters hp
    (fun c hc => (hpc c hc).1)
  cases name with
  | nil => exact absurd rfl hn
  | cons c0 name2 =>
    have hc0 : char_is_whitespace c0 = false :=
      not_ws_of_letter c0 (hletters c0 (List.mem_cons_self c0 name2))
    have hshape : (c0 :: name2) ++ ':' :: quote_char :: (p ++ [quote_char])
        = (c0 :: (name2 ++ ':' :: quote_char :: p)) ++ [quote_char] := by
      simp [List.cons_append, List.append_assoc]
    have htrim : rust_trim ((c0 :: name2) ++ ':' :: quote_char :: (p ++ [quote_char]))
        = (c0 :: name2) ++ ':' :: quote_char :: (p ++ [quote_char]) := by
      rw [hshape]
      exact rust_trim_letter_quote c0 (name2 ++ ':' :: quote_char :: p) hc0
    simp only [QueryParser.parse_query, htrim, hg]
    have hterms : compute_terms f ((p.asString)) = [] := by
      have hdata : (p.asString).data = p := rfl
      simp [compute_terms, hdata, htok]
    simp only [transform_loop, QueryParser.transform_literal, hres]
    rw [hterms]
    rfl

/-- C10 (witness): the theorem at the test parser, field `title`, phrase
body `!!`. -/
theorem parse_query_phrase_no_tokens_zero_terms_witness :
    tokenize ("!!".toList) = []
      ∧ tqp_fixture.parse_query
            ("title".toList ++ ':' :: quote_char :: ("!!".toList ++ [quote_char]))
          = Except.ok (StandardQuery.MultiTerm (MultiTermQuery.new [])) :=
  parse_query_phrase_no_tokens_zero_terms tqp_fixture ("title".toList) ("!!".toList)
    1 rfl (by decide) (by decide) (by decide) (by decide)

end Tantivy
